import Mathlib

/-!
Verification of the Variant 24 configuration-language compiler
(`src/dz/config_parser_v24.py`): lexing, LALR-style parsing, constant
resolution via a lark `Transformer`, and XML emission through
`xml.etree.ElementTree` plus `xml.dom.minidom` pretty-printing.

The development is a shallow embedding: the lexer is a character state
machine equivalent to lark's terminal definitions for this grammar, the
parser is a deterministic recursive-descent reading of the grammar rules
(the grammar is deterministic with one token of lookahead, so this agrees
with lark's LALR parser), the transformer mirrors the bottom-up,
left-to-right callback order of `lark.Transformer.transform` together with
the `?start` tree inlining, and the emitter mirrors
`generate_xml_from_dict` composed with minidom's `toprettyxml`.
-/

namespace ConfigV24

/-- Error taxonomy of the pipeline: lark raises `UnexpectedInput` for
lexical and syntax errors, and the transformer raises raw `VisitError`s;
`main` catches each kind separately, prints it and exits 1 producing no
output. -/
inductive Err where
  | lexError (msg : String)
  | parseError (msg : String)
  | visitError (msg : String)
deriving Repr, DecidableEq

/-- Tokens of the grammar.  Anonymous string terminals (`def`, `=`, braces,
comma) are filtered out of parse trees by lark but still appear in the
token stream; named terminals (`NAME`, `NUMBER`, `STRING_DOUBLE`,
`QUESTION_MARK`, `LBRACKET`, `RBRACKET`) keep their matched text. -/
inductive Tok where
  | kwDef
  | eq
  | lbrace
  | rbrace
  | comma
  | question
  | lbracket
  | rbracket
  | name (s : String)
  | number (s : String)
  | strLit (raw : String)
deriving Repr, DecidableEq

/-- Whitespace characters of `%import common.WS` (regex `\s+`, ASCII part;
the claims involve only ASCII input). -/
def isWsChar (c : Char) : Bool :=
  c == ' ' || c == '\t' || c == '\n' || c == '\r' || c == '\x0b' || c == '\x0c'

/-- ASCII decimal digit, the `\d` of `NUMBER: /[+-]?\d+/`. -/
def isDigitChar (c : Char) : Bool :=
  '0' ≤ c && c ≤ '9'

/-- First character of `NAME: /[_A-Z][_a-zA-Z0-9]*/`. -/
def isNameStart (c : Char) : Bool :=
  c == '_' || ('A' ≤ c && c ≤ 'Z')

/-- Continuation character of `NAME`. -/
def isNameCont (c : Char) : Bool :=
  c == '_' || ('A' ≤ c && c ≤ 'Z') || ('a' ≤ c && c ≤ 'z') || ('0' ≤ c && c ≤ '9')

/-- Lexer state: between tokens, inside a partially-read token, or inside
a comment.  `sawSign true` means a `-` was read (which may start a number
or a `--` line comment), `sawSign false` a `+`. -/
inductive LexSt where
  | top
  | sawSign (neg : Bool)
  | kwD
  | kwDe
  | numAcc (sign : Option Char) (ds : List Char)
  | nameAcc (cs : List Char)
  | strAcc (cs : List Char)
  | lineC
  | sawPipe
  | blockC
  | blockCHash
deriving Repr, DecidableEq

/-- Assemble a `NUMBER` token from an optional sign and its digits. -/
def mkNum (sign : Option Char) (ds : List Char) : Tok :=
  Tok.number (String.mk (match sign with | some c => c :: ds | none => ds))

/-- Assemble a `NAME` token. -/
def mkName (cs : List Char) : Tok :=
  Tok.name (String.mk cs)

/-- Assemble a `STRING_DOUBLE` token; lark stores the raw match including
both quote characters (the transformer strips them with `token[1:-1]`). -/
def mkStr (cs : List Char) : Tok :=
  Tok.strLit (String.mk ('"' :: cs ++ ['"']))

/-- One lexer step from the between-tokens state. -/
def stepTop (c : Char) : Except Err (List Tok × LexSt) :=
  if isWsChar c then .ok ([], .top)
  else if isDigitChar c then .ok ([], .numAcc none [c])
  else if isNameStart c then .ok ([], .nameAcc [c])
  else if c == '-' then .ok ([], .sawSign true)
  else if c == '+' then .ok ([], .sawSign false)
  else if c == '"' then .ok ([], .strAcc [])
  else if c == '|' then .ok ([], .sawPipe)
  else if c == 'd' then .ok ([], .kwD)
  else if c == '=' then .ok ([.eq], .top)
  else if c == '\x7b' then .ok ([.lbrace], .top)
  else if c == '\x7d' then .ok ([.rbrace], .top)
  else if c == ',' then .ok ([.comma], .top)
  else if c == '?' then .ok ([.question], .top)
  else if c == '[' then .ok ([.lbracket], .top)
  else if c == ']' then .ok ([.rbracket], .top)
  else .error (.lexError "No terminal matches the input character")

/-- One lexer step: consume character `c` in state `st`, emitting zero or
more finished tokens.  Completing a maximal-munch token (`NUMBER`, `NAME`)
emits it and then handles `c` from the between-tokens state, which is
exactly lark's longest-match tokenization for this terminal set. -/
def lexStep : LexSt → Char → Except Err (List Tok × LexSt)
  | .top, c => stepTop c
  | .sawSign neg, c =>
      if isDigitChar c then .ok ([], .numAcc (some (if neg then '-' else '+')) [c])
      else if neg && c == '-' then .ok ([], .lineC)
      else .error (.lexError "No terminal matches after a sign character")
  | .kwD, c =>
      if c == 'e' then .ok ([], .kwDe)
      else .error (.lexError "No terminal matches the input")
  | .kwDe, c =>
      if c == 'f' then .ok ([.kwDef], .top)
      else .error (.lexError "No terminal matches the input")
  | .numAcc sign ds, c =>
      if isDigitChar c then .ok ([], .numAcc sign (ds ++ [c]))
      else
        match stepTop c with
        | .error e => .error e
        | .ok (ts, st) => .ok (mkNum sign ds :: ts, st)
  | .nameAcc cs, c =>
      if isNameCont c then .ok ([], .nameAcc (cs ++ [c]))
      else
        match stepTop c with
        | .error e => .error e
        | .ok (ts, st) => .ok (mkName cs :: ts, st)
  | .strAcc cs, c =>
      if c == '"' then .ok ([mkStr cs], .top)
      else .ok ([], .strAcc (cs ++ [c]))
  | .lineC, c =>
      if c == '\n' then .ok ([], .top) else .ok ([], .lineC)
  | .sawPipe, c =>
      if c == '#' then .ok ([], .blockC)
      else .error (.lexError "No terminal matches the input")
  | .blockC, c =>
      if c == '#' then .ok ([], .blockCHash) else .ok ([], .blockC)
  | .blockCHash, c =>
      if c == '|' then .ok ([], .top)
      else if c == '#' then .ok ([], .blockCHash)
      else .ok ([], .blockC)

/-- End of input: pending `NUMBER`/`NAME` tokens are complete; a pending
string, block comment, lone sign, lone `|` or partial `def` keyword is a
lexical error. -/
def lexEnd : LexSt → Except Err (List Tok)
  | .top => .ok []
  | .sawSign _ => .error (.lexError "No terminal matches at end of input")
  | .kwD => .error (.lexError "No terminal matches at end of input")
  | .kwDe => .error (.lexError "No terminal matches at end of input")
  | .numAcc sign ds => .ok [mkNum sign ds]
  | .nameAcc cs => .ok [mkName cs]
  | .strAcc _ => .error (.lexError "Unterminated string")
  | .lineC => .ok []
  | .sawPipe => .error (.lexError "No terminal matches at end of input")
  | .blockC => .error (.lexError "Unterminated block comment")
  | .blockCHash => .error (.lexError "Unterminated block comment")

/-- Run the lexer from state `st` over the remaining characters. -/
def lexGo (st : LexSt) : List Char → Except Err (List Tok)
  | [] => lexEnd st
  | c :: cs =>
      match lexStep st c with
      | .error e => .error e
      | .ok (ts, st') =>
          match lexGo st' cs with
          | .error e => .error e
          | .ok rest => .ok (ts ++ rest)

/-- Tokenize a whole input string. -/
def lexString (s : String) : Except Err (List Tok) :=
  lexGo .top s.data

example : lexString "def A = 1" =
    .ok [.kwDef, .name "A", .eq, .number "1"] := by rfl

example : lexString "?[A] \"x\" \x7b1,-2\x7d -- c" =
    .ok [.question, .lbracket, .name "A", .rbracket, .strLit "\"x\"",
         .lbrace, .number "1", .comma, .number "-2", .rbrace] := by rfl

example : lexString "|# block #| 7" = .ok [.number "7"] := by rfl

example : lexString "|# x" = .error (.lexError "Unterminated block comment") := by rfl

/-- Parse-tree values, the productions of
`?value: number | string | array | const_expr`.  `num` and `str` keep the
raw matched text (conversion happens in the transformer callbacks, as in
the source). -/
inductive Ast where
  | num (s : String)
  | str (raw : String)
  | ref (n : String)
  | arr (elems : List Ast)
deriving Repr

/-- A top-level item of `?start: (assignment | value)*`. -/
inductive Item where
  | assign (n : String) (v : Ast)
  | bare (v : Ast)
deriving Repr

mutual

/-- Recursive-descent parser for `value`, with a fuel argument bounding
recursion depth (the grammar is deterministic with one token of
lookahead, so this accepts exactly the LALR language; the top-level entry
point supplies fuel that can never run out for a finite token list). -/
def parseValue : Nat → List Tok → Except Err (Ast × List Tok)
  | 0, _ => .error (.parseError "Nesting too deep")
  | Nat.succ fuel, ts =>
      match ts with
      | .number s :: rest => .ok (.num s, rest)
      | .strLit s :: rest => .ok (.str s, rest)
      | .question :: .lbracket :: .name n :: .rbracket :: rest => .ok (.ref n, rest)
      | .lbrace :: rest =>
          match parseValue fuel rest with
          | .error e => .error e
          | .ok (v, rest1) => parseArrayTail fuel [v] rest1
      | _ => .error (.parseError "Unexpected token in value position")

/-- Parse `("," value)* "}"` after at least one array element, per
`array: "\x7b" value ("," value)* "\x7d"` — an array literal cannot be
empty. -/
def parseArrayTail : Nat → List Ast → List Tok → Except Err (Ast × List Tok)
  | 0, _, _ => .error (.parseError "Nesting too deep")
  | Nat.succ fuel, acc, ts =>
      match ts with
      | .comma :: rest =>
          match parseValue fuel rest with
          | .error e => .error e
          | .ok (v, rest1) => parseArrayTail fuel (acc ++ [v]) rest1
      | .rbrace :: rest => .ok (.arr acc, rest)
      | _ => .error (.parseError "Expected comma or closing brace in array")

end

/-- Parse the top-level item sequence of `?start`. -/
def parseItems : Nat → List Tok → Except Err (List Item)
  | 0, _ => .error (.parseError "Nesting too deep")
  | Nat.succ fuel, ts =>
      match ts with
      | [] => .ok []
      | .kwDef :: .name n :: .eq :: rest =>
          match parseValue fuel rest with
          | .error e => .error e
          | .ok (v, rest1) =>
              match parseItems fuel rest1 with
              | .error e => .error e
              | .ok items => .ok (.assign n v :: items)
      | .kwDef :: _ => .error (.parseError "Malformed assignment")
      | _ =>
          match parseValue fuel ts with
          | .error e => .error e
          | .ok (v, rest) =>
              match parseItems fuel rest with
              | .error e => .error e
              | .ok items => .ok (.bare v :: items)

/-- Parse a token list into the top-level item sequence; every recursive
call consumes at least one token, so `length + 1` fuel always suffices. -/
def parseProgram (ts : List Tok) : Except Err (List Item) :=
  parseItems (ts.length + 1) ts

/-- Resolved Python values as the transformer and emitter handle them:
`int` (arbitrary precision, as in Python), `str`, `list`, the result
dictionary, and the `(name, value)` tuple returned by `assign_const`. -/
inductive PyVal where
  | int (n : Int)
  | str (s : String)
  | list (xs : List PyVal)
  | dict (entries : List (String × PyVal))
  | tuple (n : String) (v : PyVal)
deriving Repr

/-- Ordered dictionary as used for `self.constants` and `result_dict`:
a Python 3.7+ `dict` preserves insertion order and, on overwrite, keeps
the position of the key's first insertion. -/
abbrev Dict := List (String × PyVal)

/-- `d[k] = v` on a Python dict: update the value in place if the key is
present (keeping its original position), otherwise append. -/
def dictInsert (d : Dict) (k : String) (v : PyVal) : Dict :=
  if d.any (fun p => p.1 == k) then
    d.map (fun p => if p.1 == k then (p.1, v) else p)
  else
    d ++ [(k, v)]

/-- `d.get(k)` / `k in d`: the first (necessarily unique) binding. -/
def dictGet (d : Dict) (k : String) : Option PyVal :=
  (d.find? (fun p => p.1 == k)).map (fun p => p.2)

/-- Python `int()` applied to text matching `[+-]?\d+`: an optional
leading sign followed by decimal digits, with no bound on the result. -/
def parseIntLit (s : String) : Int :=
  let natOf : List Char → Nat :=
    fun ds => ds.foldl (fun a c => a * 10 + (c.toNat - '0'.toNat)) 0
  match s.data with
  | [] => 0
  | c :: rest =>
      if c = '-' then - (natOf rest : Int)
      else if c = '+' then (natOf rest : Int)
      else (natOf (c :: rest) : Int)

/-- The f-string built at source line 78 and passed to `VisitError`: the
intended error text, which names the undefined constant.  It never
propagates, because the one-argument `VisitError(msg)` construction
itself fails — see `wrapMsg`. -/
def undefMsg (n : String) : String :=
  "Undefined constant '" ++ n ++ "' used in expression ?[" ++ n ++ "]"

/-- The text of the `TypeError` raised when `resolve_const` executes
`raise VisitError(f"...")`: lark's `VisitError.__init__` requires the
three arguments `rule`, `obj`, `orig_exc`, so the construction fails
before the intended message exists.  The exact wording differs slightly
across Python versions; this fixed representative (CPython 3.10+) stands
for all of them, and like all of them it does not mention the constant's
name. -/
def typeErrorMsg : String :=
  "VisitError.__init__() missing 2 required positional arguments: 'obj' and 'orig_exc'"

/-- The message of the `VisitError` that actually propagates out of the
transformer: `Transformer._call_userfunc` catches the `TypeError` from
the failed construction and re-raises `VisitError(tree.data, tree, e)`,
whose message is `Error trying to process rule "<rule>":` followed by a
blank line and the original exception's text. -/
def wrapMsg (rule : String) : String :=
  "Error trying to process rule \"" ++ rule ++ "\":" ++ "\n\n" ++ typeErrorMsg

/-- The error value an undefined constant reference actually produces:
the wrapped `TypeError` for rule `resolve_const`.  The constant's name
appears nowhere in it. -/
def resolveConstFailure : Err := Err.visitError (wrapMsg "resolve_const")

mutual

/-- Bottom-up resolution of a value subtree against the current constant
table: the `number`, `string`, `array` and `resolve_const` callbacks of
`ConfigTransformer`.  A reference to an absent name aborts with
`resolveConstFailure`: the `raise VisitError(msg)` written at line 78
mis-calls the three-argument constructor, so what propagates is lark's
`VisitError` wrapping that `TypeError`, not the intended message.
Numbers convert via Python `int` with no range check. -/
def resolveVal (tbl : Dict) : Ast → Except Err PyVal
  | .num s => .ok (.int (parseIntLit s))
  | .str raw => .ok (.str ((raw.drop 1).dropRight 1))
  | .ref n =>
      match dictGet tbl n with
      | some v => .ok v
      | none => .error resolveConstFailure
  | .arr xs =>
      match resolveList tbl xs with
      | .error e => .error e
      | .ok vs => .ok (.list vs)

/-- Resolve array elements left to right (first failure wins, matching
exception propagation). -/
def resolveList (tbl : Dict) : List Ast → Except Err (List PyVal)
  | [] => .ok []
  | a :: rest =>
      match resolveVal tbl a with
      | .error e => .error e
      | .ok v =>
          match resolveList tbl rest with
          | .error e => .error e
          | .ok vs => .ok (v :: vs)

end

/-- A transformed top-level item as it reaches the `start` callback:
`assign_const` returns the `(name, value)` tuple, a bare value arrives as
the resolved value itself. -/
inductive TItem where
  | pair (n : String) (v : PyVal)
  | val (v : PyVal)
deriving Repr

/-- Left-to-right, depth-first transformation of the top-level items,
threading the mutable `self.constants` table: each `assign_const` resolves
its right-hand side against the table as it stands, then stores the value
under the name (overwriting any earlier binding); bare values just
resolve.  (The source also fills a `self.assignments` dict that is never
read.) -/
def transformItems (tbl : Dict) : List Item → Except Err (List TItem × Dict)
  | [] => .ok ([], tbl)
  | .assign n ast :: rest =>
      match resolveVal tbl ast with
      | .error e => .error e
      | .ok v =>
          match transformItems (dictInsert tbl n v) rest with
          | .error e => .error e
          | .ok (tis, tbl') => .ok (.pair n v :: tis, tbl')
  | .bare ast :: rest =>
      match resolveVal tbl ast with
      | .error e => .error e
      | .ok v =>
          match transformItems tbl rest with
          | .error e => .error e
          | .ok (tis, tbl') => .ok (.val v :: tis, tbl')

/-- The loop body of `ConfigTransformer.start`: tuples from `assign_const`
enter `result_dict` under their name, anything else gets the synthesized
key `item_<counter>` and bumps the counter.  (The source's branch for a
leftover `Tree('assign_const')` node is dead once transformation has
happened — every assignment already arrived as a tuple — and therefore has
no counterpart here.) -/
def startDict : List TItem → Dict → Nat → Dict
  | [], d, _ => d
  | .pair n v :: rest, d, k => startDict rest (dictInsert d n v) k
  | .val v :: rest, d, k =>
      startDict rest (dictInsert d ("item_" ++ toString k) v) (k + 1)

/-- The value a transformed item stands for when the `?start` rule is
inlined (exactly one top-level item): lark replaces a `?`-rule tree having
a single child by that child, so `start` is never called and
`transformer.transform` returns the child's transformed value. -/
def tItemToPy : TItem → PyVal
  | .pair n v => .tuple n v
  | .val v => v

/-- `transformer.transform(parse_tree)`: run the callbacks over all items;
with exactly one top-level item the `?start` tree was inlined away and the
result is that item's value, otherwise `start` builds `result_dict`. -/
def transformTop (items : List Item) : Except Err PyVal :=
  match transformItems [] items with
  | .error e => .error e
  | .ok (tis, _) =>
      match tis with
      | [ti] => .ok (tItemToPy ti)
      | _ => .ok (.dict (startDict tis [] 0))

example :
    ((match lexString "def A = 1 def B = ?[A] def A = 2 def C = ?[A]" with
      | .error e => .error e
      | .ok ts => parseProgram ts) : Except Err (List Item)) =
    .ok [.assign "A" (.num "1"), .assign "B" (.ref "A"),
         .assign "A" (.num "2"), .assign "C" (.ref "A")] := by rfl

/-- Python `repr` of a string: single-quoted unless the text contains a
single quote and no double quote, with backslashes and quotes escaped.
The two sequential single-character replacements are realized as one
character-wise map — equivalent, since the first replacement's output
contains no quote characters. -/
def reprQuote (s : String) : String :=
  let useDouble := s.data.any (fun c => c == '\'') && !(s.data.any (fun c => c == '"'))
  let escape : Char → List Char := fun c =>
    if c == '\\' then ['\\', '\\']
    else if c == '\'' && !useDouble then ['\\', '\'']
    else [c]
  let core := String.mk (s.data.foldr (fun c acc => escape c ++ acc) [])
  if useDouble then "\"" ++ core ++ "\"" else "'" ++ core ++ "'"

mutual

/-- Python `repr` for the values reachable here (used by `str` on
containers and tuples).  Covers the characters these values can actually
carry; only the never-claimed single-assignment top level renders through
it. -/
def pyRepr : PyVal → String
  | .int n => toString n
  | .str s => reprQuote s
  | .list xs => "[" ++ pyReprSep xs ++ "]"
  | .dict entries => "\x7b" ++ pyReprEntries entries ++ "\x7d"
  | .tuple n v => "(" ++ reprQuote n ++ ", " ++ pyRepr v ++ ")"

/-- Comma-separated `repr`s of list elements. -/
def pyReprSep : List PyVal → String
  | [] => ""
  | [x] => pyRepr x
  | x :: rest => pyRepr x ++ ", " ++ pyReprSep rest

/-- Comma-separated `repr`s of dict entries. -/
def pyReprEntries : List (String × PyVal) → String
  | [] => ""
  | [(k, v)] => reprQuote k ++ ": " ++ pyRepr v
  | (k, v) :: rest => reprQuote k ++ ": " ++ pyRepr v ++ ", " ++ pyReprEntries rest

end

/-- Python `str()` as applied by `_to_xml_recurse` to non-dict, non-list
data: identity on strings, decimal representation of integers, `repr`
otherwise. -/
def pyStr : PyVal → String
  | .int n => toString n
  | .str s => s
  | v => pyRepr v

/-- An `xml.etree.ElementTree` element as built by
`generate_xml_from_dict`: a tag, optional text content, child elements.
`_to_xml_recurse` gives every element either text or children, never
both. -/
structure Elem where
  tag : String
  text : Option String
  children : List Elem
deriving Repr

mutual

/-- The content `_to_xml_recurse(parent, data)` attaches to `parent`:
a dict contributes one child per entry, a list contributes an `array`
child holding one `item` child per element, and anything else becomes the
parent's text via `str`. -/
def xmlContent : PyVal → Option String × List Elem
  | .dict entries => (none, xmlEntryElems entries)
  | .list xs => (none, [⟨"array", none, xmlItemElems xs⟩])
  | .int n => (some (pyStr (.int n)), [])
  | .str s => (some (pyStr (.str s)), [])
  | .tuple n v => (some (pyStr (.tuple n v)), [])

/-- Child elements of a dict: `ET.SubElement(parent, key)` then recurse. -/
def xmlEntryElems : List (String × PyVal) → List Elem
  | [] => []
  | (k, v) :: rest =>
      ⟨k, (xmlContent v).1, (xmlContent v).2⟩ :: xmlEntryElems rest

/-- `item` children of an `array` element. -/
def xmlItemElems : List PyVal → List Elem
  | [] => []
  | v :: rest =>
      ⟨"item", (xmlContent v).1, (xmlContent v).2⟩ :: xmlItemElems rest

end

/-- Character-data escaping performed by minidom's `_write_data` when
serializing text nodes: `&`, `<`, `"`, `>` in that order.  The four
sequential single-character replacements equal one character-wise map,
since no replacement text contains a pattern character of a later pass. -/
def escapeData (s : String) : String :=
  let escape : Char → List Char := fun c =>
    if c == '&' then "&amp;".data
    else if c == '<' then "&lt;".data
    else if c == '"' then "&quot;".data
    else if c == '>' then "&gt;".data
    else [c]
  String.mk (s.data.foldr (fun c acc => escape c ++ acc) [])

mutual

/-- minidom `Element.writexml` on the tree obtained by re-parsing
`ET.tostring(root)`: a childless, textless element self-closes; a sole
text child is written inline on one line; otherwise children are written
one per line at the next indent level (a text child first, since
`ET.tostring` serializes`.text` before subelements). -/
def writeElem : Elem → String → String → String → String
  | ⟨tag, text, []⟩, indent, _, newl =>
      let txt := match text with | some t => t | none => ""
      if txt == "" then
        indent ++ "<" ++ tag ++ "/>" ++ newl
      else
        indent ++ "<" ++ tag ++ ">" ++ escapeData txt ++ "</" ++ tag ++ ">" ++ newl
  | ⟨tag, text, c :: cs⟩, indent, addindent, newl =>
      let txt := match text with | some t => t | none => ""
      indent ++ "<" ++ tag ++ ">" ++ newl
        ++ (if txt == "" then "" else indent ++ addindent ++ escapeData txt ++ newl)
        ++ writeElems (c :: cs) (indent ++ addindent) addindent newl
        ++ indent ++ "</" ++ tag ++ ">" ++ newl

/-- Serialize a list of sibling elements. -/
def writeElems : List Elem → String → String → String → String
  | [], _, _, _ => ""
  | e :: rest, indent, addindent, newl =>
      writeElem e indent addindent newl ++ writeElems rest indent addindent newl

end

/-- Everything after the first newline (used to drop the declaration
line, whose trailing newline `splitlines(True)` keeps with it). -/
def dropLine : List Char → List Char
  | [] => []
  | '\n' :: rest => rest
  | _ :: rest => dropLine rest

/-- Drop the first line when it starts with `<?xml`, as
`generate_xml_from_dict` does with `splitlines`/`startswith`/`join`. -/
def dropXmlDecl (s : String) : String :=
  match s.data with
  | '<' :: '?' :: 'x' :: 'm' :: 'l' :: rest =>
      String.mk (dropLine ('<' :: '?' :: 'x' :: 'm' :: 'l' :: rest))
  | _ => s

/-- Python `str.strip()`: remove leading and trailing whitespace. -/
def pyStrip (s : String) : String :=
  String.mk (((s.data.dropWhile isWsChar).reverse.dropWhile isWsChar).reverse)

/-- `generate_xml_from_dict`: build the element tree under a root
(default tag `config`), serialize, pretty-print via minidom with
two-space indent (which prepends the `<?xml version="1.0" ?>` line),
strip that declaration line and surrounding whitespace. -/
def generate_xml_from_dict (data : PyVal) (rootName : String) : String :=
  let content := xmlContent data
  let root : Elem := ⟨rootName, content.1, content.2⟩
  let pretty := "<?xml version=\"1.0\" ?>" ++ "\n" ++ writeElem root "" "  " "\n"
  pyStrip (dropXmlDecl pretty)

/-- The processing `main` performs on the file text: lex, parse,
transform.  Any error aborts the run (caught in `main`, which prints to
stderr and exits 1 without producing output). -/
def pipelineDoc (input : String) : Except Err PyVal :=
  match lexString input with
  | .error e => .error e
  | .ok toks =>
      match parseItems (toks.length + 1) toks with
      | .error e => .error e
      | .ok items => transformTop items

/-- Full pipeline through XML generation: the text printed to stdout on
success. -/
def pipelineXml (input : String) : Except Err String :=
  match pipelineDoc input with
  | .error e => .error e
  | .ok d => .ok (generate_xml_from_dict d "config")

example :
    pipelineDoc "def A = 1 def B = ?[A] def A = 2 def C = ?[A]" =
    .ok (.dict [("A", .int 2), ("B", .int 1), ("C", .int 2)]) := by rfl

example :
    pipelineXml "def X = 5 0" =
    .ok "<config>\n  <X>5</X>\n  <item_0>0</item_0>\n</config>" := by rfl

example : pipelineXml "" = .ok "<config/>" := by rfl

/-! ## General lemmas about the transformer -/

theorem transformItems_append (tbl : Dict) (xs ys : List Item) :
    transformItems tbl (xs ++ ys) =
      match transformItems tbl xs with
      | .error e => .error e
      | .ok (txs, t1) =>
          match transformItems t1 ys with
          | .error e => .error e
          | .ok (tys, t2) => .ok (txs ++ tys, t2) := by
  induction xs generalizing tbl with
  | nil =>
      show transformItems tbl ys = _
      cases h : transformItems tbl ys with
      | error e => simp [transformItems, h]
      | ok p => simp [transformItems, h]
  | cons a xs ih =>
      cases a with
      | assign n ast =>
          show transformItems tbl (.assign n ast :: (xs ++ ys)) = _
          simp only [transformItems]
          cases hr : resolveVal tbl ast with
          | error e => rfl
          | ok v =>
              dsimp only
              rw [ih]
              cases h1 : transformItems (dictInsert tbl n v) xs with
              | error e => rfl
              | ok p =>
                  obtain ⟨tis, tbl'⟩ := p
                  dsimp only
                  cases h2 : transformItems tbl' ys with
                  | error e => rfl
                  | ok q => rfl
      | bare ast =>
          show transformItems tbl (.bare ast :: (xs ++ ys)) = _
          simp only [transformItems]
          cases hr : resolveVal tbl ast with
          | error e => rfl
          | ok v =>
              dsimp only
              rw [ih]
              cases h1 : transformItems tbl xs with
              | error e => rfl
              | ok p =>
                  obtain ⟨tis, tbl'⟩ := p
                  dsimp only
                  cases h2 : transformItems tbl' ys with
                  | error e => rfl
                  | ok q => rfl

/-! ## Claim theorems -/

/-- C1: for `def A = 1 def B = ?[A] def A = 2 def C = ?[A]`, resolution
binds B to Number 1 and C to Number 2: each `?[NAME]` reads the constant
table as it stands at that point of the left-to-right traversal, and
(first conjunct) the transformation of earlier items is completely
independent of later items, so a later redefinition cannot retroactively
change an earlier consumer's resolved value. -/
theorem c1_point_of_use_resolution :
    (∀ (tbl : Dict) (xs ys : List Item),
      transformItems tbl (xs ++ ys) =
        match transformItems tbl xs with
        | .error e => .error e
        | .ok (txs, t1) =>
            match transformItems t1 ys with
            | .error e => .error e
            | .ok (tys, t2) => .ok (txs ++ tys, t2)) ∧
    pipelineDoc "def A = 1 def B = ?[A] def A = 2 def C = ?[A]" =
      .ok (.dict [("A", .int 2), ("B", .int 1), ("C", .int 2)]) :=
  ⟨transformItems_append, by rfl⟩

/-- C4 counterexample: the literal `9223372036854775808` is `2 ^ 63`,
strictly above the 64-bit signed maximum `2 ^ 63 - 1`, yet resolution
succeeds with that exact integer — the code converts with Python's
unbounded `int` and never raises a `NumberOverflow`. -/
theorem c4_counterexample_no_overflow :
    pipelineDoc "9223372036854775808" = .ok (.int 9223372036854775808) ∧
    (9223372036854775808 : Int) > 2 ^ 63 - 1 :=
  ⟨by rfl, by norm_num⟩

/-- Value of a digit string, most significant digit first (specification
of what a `NUMBER` literal denotes). -/
def digitsVal (ds : List Char) : Nat :=
  Nat.ofDigits 10 ((ds.map (fun c => c.toNat - '0'.toNat)).reverse)

theorem foldl_digits (ds : List Char) (a : Nat) :
    ds.foldl (fun a c => a * 10 + (c.toNat - '0'.toNat)) a =
      a * 10 ^ ds.length + digitsVal ds := by
  induction ds generalizing a with
  | nil => simp [digitsVal, Nat.ofDigits]
  | cons c ds ih =>
      simp only [List.foldl_cons, ih, digitsVal, List.map_cons, List.reverse_cons,
        Nat.ofDigits_append, List.length_reverse, List.length_map, List.length_cons,
        Nat.ofDigits_cons, Nat.ofDigits_nil]
      ring

/-- C4 amended: every `NUMBER` literal (optional leading `+` or `-`, one
or more digits) is converted at resolution time to the arbitrary-precision
integer it denotes; resolution never fails on a number literal — there is
no `NumberOverflow` error for literals beyond the 64-bit signed range. -/
theorem c4_amended_unbounded_conversion (sign : Option Char) (ds : List Char)
    (tbl : Dict) (hne : ds ≠ []) (hds : ds.all isDigitChar = true)
    (hsign : sign = none ∨ sign = some '+' ∨ sign = some '-') :
    resolveVal tbl
      (.num (String.mk (match sign with | some c => c :: ds | none => ds))) =
      .ok (.int (if sign = some '-' then -(digitsVal ds : Int) else (digitsVal ds : Int))) := by
  have hfold := foldl_digits ds 0
  simp only [Nat.zero_mul, Nat.zero_add] at hfold
  rcases hsign with h | h | h
  · subst h
    cases ds with
    | nil => exact absurd rfl hne
    | cons d ds' =>
        have hd : isDigitChar d = true := List.all_eq_true.mp hds d (by simp)
        have hd1 : ¬(d = '-') := by rintro rfl; simp [isDigitChar] at hd
        have hd2 : ¬(d = '+') := by rintro rfl; simp [isDigitChar] at hd
        simp only [resolveVal, parseIntLit]
        show Except.ok (PyVal.int _) = _
        rw [if_neg hd1, if_neg hd2, hfold]
        rw [if_neg (by simp)]
  · subst h
    simp only [resolveVal, parseIntLit]
    simp
    simpa using hfold
  · subst h
    simp only [resolveVal, parseIntLit]
    simp
    simpa using hfold

/-- Witness for the amended C4 at the concrete literal `2 ^ 63`, outside
the 64-bit signed range. -/
theorem c4_amended_witness :
    resolveVal [] (.num (String.mk "9223372036854775808".data)) =
      .ok (.int ((digitsVal "9223372036854775808".data : Nat) : Int)) := by
  have h := c4_amended_unbounded_conversion none "9223372036854775808".data []
    (by decide) (by decide) (Or.inl rfl)
  simpa using h

/-- C5: `1 "x" \x7b1,2,3\x7d` produces the Document with exactly the keys
`item_0`, `item_1`, `item_2` in that order bound to Number 1, Text "x" and
Array [1,2,3]; the emitted XML has three sibling children under the root,
the third containing an `array` element with three `item` children whose
texts are `1`, `2`, `3`. -/
theorem c5_round_trip_shape :
    pipelineDoc "1 \"x\" \x7b1,2,3\x7d" =
      .ok (.dict [("item_0", .int 1), ("item_1", .str "x"),
                  ("item_2", .list [.int 1, .int 2, .int 3])]) ∧
    xmlContent (.dict [("item_0", .int 1), ("item_1", .str "x"),
                       ("item_2", .list [.int 1, .int 2, .int 3])]) =
      (none,
       [⟨"item_0", some "1", []⟩,
        ⟨"item_1", some "x", []⟩,
        ⟨"item_2", none,
         [⟨"array", none,
           [⟨"item", some "1", []⟩, ⟨"item", some "2", []⟩,
            ⟨"item", some "3", []⟩]⟩]⟩]) ∧
    pipelineXml "1 \"x\" \x7b1,2,3\x7d" =
      .ok ("<config>\n  <item_0>1</item_0>\n  <item_1>x</item_1>\n  <item_2>\n    <array>\n      <item>1</item>\n      <item>2</item>\n      <item>3</item>\n    </array>\n  </item_2>\n</config>") :=
  ⟨by rfl, by rfl, by rfl⟩

theorem string_append_assoc (a b c : String) : a ++ b ++ c = a ++ (b ++ c) := by
  cases a with | mk da =>
  cases b with | mk db =>
  cases c with | mk dc =>
  show String.mk (da ++ db ++ dc) = String.mk (da ++ (db ++ dc))
  rw [List.append_assoc]

/-- C9: the emitter is total on arbitrary Document values — in this model
every function is total by construction — and on an entry holding an
empty Array it produces an `array` element with no children, serialized as
the self-closed `<array/>` at the current indent. -/
theorem c9_emitter_total_on_empty_array :
    xmlContent (.list []) = (none, [⟨"array", none, []⟩]) ∧
    (∀ indent addindent newl : String,
      writeElem ⟨"array", none, []⟩ indent addindent newl =
        indent ++ "<array/>" ++ newl) ∧
    generate_xml_from_dict (.dict [("EMPTY", .list [])]) "config" =
      "<config>\n  <EMPTY>\n    <array/>\n  </EMPTY>\n</config>" := by
  refine ⟨by rfl, ?_, by rfl⟩
  intro indent addindent newl
  show indent ++ "<" ++ "array" ++ "/>" ++ newl = indent ++ "<array/>" ++ newl
  rw [string_append_assoc indent "<" "array"]
  show indent ++ "<array" ++ "/>" ++ newl = indent ++ "<array/>" ++ newl
  rw [string_append_assoc indent "<array" "/>"]
  rfl

/-! ## Python dict semantics: last write wins for the value, first
occurrence wins for the position -/

/-- The keys of a dict, in order. -/
def dictKeys (d : Dict) : List String := d.map Prod.fst

/-- Repeated `d[k] = v` over a list of key/value pairs. -/
def foldInsert (d : Dict) (ps : List (String × PyVal)) : Dict :=
  ps.foldl (fun acc p => dictInsert acc p.1 p.2) d

/-- The value of the last entry for a key in a pair list ("later entry
overwrites earlier same-named entry"), specification side. -/
def lastAssign : List (String × PyVal) → String → Option PyVal
  | [], _ => none
  | p :: rest, k =>
      match lastAssign rest k with
      | some v => some v
      | none => if p.1 == k then some p.2 else none

/-- Boolean membership in a key list. -/
def keyMem (ks : List String) (k : String) : Bool :=
  ks.any (fun x => x == k)

/-- Keys in order of their first occurrence, omitting keys already seen,
specification side. -/
def newFirstKeys : List String → List String → List String
  | _, [] => []
  | seen, k :: ks =>
      if keyMem seen k then newFirstKeys seen ks
      else k :: newFirstKeys (seen ++ [k]) ks

theorem keyMem_dictKeys (d : Dict) (k : String) :
    keyMem (dictKeys d) k = d.any (fun p => p.1 == k) := by
  induction d with
  | nil => rfl
  | cons p d ih => simp [keyMem, dictKeys, List.any_cons] at ih ⊢; rw [ih]

theorem find_map_update (d : Dict) (k m : String) (v : PyVal) (hmk : ¬(m = k)) :
    List.find? (fun p => p.1 == m)
        (d.map (fun p => if p.1 == k then (p.1, v) else p)) =
      List.find? (fun p => p.1 == m) d := by
  induction d with
  | nil => rfl
  | cons p d ih =>
      simp only [List.map_cons]
      by_cases hpk : p.1 = k
      · have hpm : (p.1 == m) = false := by
          rw [beq_eq_false_iff_ne]
          intro h
          exact hmk (h ▸ hpk)
        rw [if_pos (by simp [hpk])]
        rw [List.find?_cons_of_neg _ (by simp [hpm]),
          List.find?_cons_of_neg _ (by simp [hpm])]
        exact ih
      · rw [if_neg (by simp [hpk])]
        cases hpm : p.1 == m with
        | true =>
            rw [List.find?_cons_of_pos _ (by simp [hpm]),
              List.find?_cons_of_pos _ (by simp [hpm])]
        | false =>
            rw [List.find?_cons_of_neg _ (by simp [hpm]),
              List.find?_cons_of_neg _ (by simp [hpm])]
            exact ih

theorem find_append_single (d : Dict) (k m : String) (v : PyVal)
    (hmk : ¬(m = k)) :
    List.find? (fun p => p.1 == m) (d ++ [(k, v)]) =
      List.find? (fun p => p.1 == m) d := by
  induction d with
  | nil =>
      have : (k == m) = false := by
        rw [beq_eq_false_iff_ne]
        intro h
        exact hmk h.symm
      simp [List.find?, this]
  | cons p d ih =>
      simp only [List.cons_append]
      cases hpm : p.1 == m with
      | true =>
          rw [List.find?_cons_of_pos _ (by simp [hpm]),
            List.find?_cons_of_pos _ (by simp [hpm])]
      | false =>
          rw [List.find?_cons_of_neg _ (by simp [hpm]),
            List.find?_cons_of_neg _ (by simp [hpm])]
          exact ih

theorem dictGet_insert_self (d : Dict) (k : String) (v : PyVal) :
    dictGet (dictInsert d k v) k = some v := by
  unfold dictInsert
  cases hany : d.any (fun p => p.1 == k) with
  | false =>
      simp only [Bool.false_eq_true, if_false]
      unfold dictGet
      induction d with
      | nil => simp [List.find?]
      | cons p d ih =>
          simp only [List.any_cons, Bool.or_eq_false_iff] at hany
          obtain ⟨h1, h2⟩ := hany
          rw [List.cons_append, List.find?_cons_of_neg _ (by simp [h1])]
          exact ih h2
  | true =>
      simp only [if_true]
      unfold dictGet
      induction d with
      | nil => simp at hany
      | cons p d ih =>
          simp only [List.any_cons] at hany
          simp only [List.map_cons]
          by_cases hpk : p.1 = k
          · rw [if_pos (by simp [hpk]), List.find?_cons_of_pos _ (by simp [hpk])]
            rfl
          · rw [if_neg (by simp [hpk]), List.find?_cons_of_neg _ (by simp [hpk])]
            have hany' : (d.any fun p => p.1 == k) = true := by
              rw [Bool.or_eq_true] at hany
              rcases hany with h | h
              · exact absurd (by simpa using h) hpk
              · exact h
            exact ih hany'

theorem dictGet_insert_other (d : Dict) (k m : String) (v : PyVal)
    (hmk : ¬(m = k)) : dictGet (dictInsert d k v) m = dictGet d m := by
  unfold dictInsert dictGet
  cases hany : d.any (fun p => p.1 == k) with
  | false =>
      simp only [Bool.false_eq_true, if_false]
      rw [find_append_single d k m v hmk]
  | true =>
      simp only [if_true]
      rw [find_map_update d k m v hmk]

theorem dictKeys_insert (d : Dict) (k : String) (v : PyVal) :
    dictKeys (dictInsert d k v) =
      if keyMem (dictKeys d) k then dictKeys d else dictKeys d ++ [k] := by
  rw [keyMem_dictKeys]
  unfold dictInsert
  cases hany : d.any (fun p => p.1 == k) with
  | false => simp [dictKeys]
  | true =>
      simp only [if_true]
      unfold dictKeys
      rw [List.map_map]
      apply List.map_congr_left
      intro p _
      by_cases h : p.1 = k <;> simp [h]

theorem foldInsert_get (ps : List (String × PyVal)) (d : Dict) (k : String) :
    dictGet (foldInsert d ps) k =
      match lastAssign ps k with
      | some v => some v
      | none => dictGet d k := by
  induction ps generalizing d with
  | nil => rfl
  | cons p ps ih =>
      show dictGet (foldInsert (dictInsert d p.1 p.2) ps) k = _
      rw [ih]
      cases hla : lastAssign ps k with
      | some v => simp [lastAssign, hla]
      | none =>
          simp only [lastAssign, hla]
          by_cases hpk : p.1 = k
          · subst hpk
            rw [dictGet_insert_self]
            simp
          · rw [dictGet_insert_other d p.1 k p.2 (fun h => hpk h.symm)]
            have : (p.1 == k) = false := by
              rw [beq_eq_false_iff_ne]
              exact hpk
            simp [this]

theorem foldInsert_keys (ps : List (String × PyVal)) (d : Dict) :
    dictKeys (foldInsert d ps) =
      dictKeys d ++ newFirstKeys (dictKeys d) (ps.map Prod.fst) := by
  induction ps generalizing d with
  | nil => simp [foldInsert, newFirstKeys]
  | cons p ps ih =>
      show dictKeys (foldInsert (dictInsert d p.1 p.2) ps) = _
      rw [ih, dictKeys_insert]
      simp only [List.map_cons, newFirstKeys]
      by_cases h : keyMem (dictKeys d) p.1
      · rw [if_pos h, if_pos h]
      · rw [if_neg h, if_neg h]
        simp

/-- C3 counterexample: for `def A = 1 2 def A = 3` the surviving entry
for `A` carries the later value 3 but sits at the position of the earlier
occurrence — before `item_0` — not at the position of the later
occurrence, contradicting the claim's positional reading. -/
theorem c3_counterexample_position :
    pipelineDoc "def A = 1 2 def A = 3" =
      .ok (.dict [("A", .int 3), ("item_0", .int 2)]) ∧
    PyVal.dict [("A", .int 3), ("item_0", .int 2)] ≠
      PyVal.dict [("item_0", .int 2), ("A", .int 3)] := by
  refine ⟨by rfl, ?_⟩
  intro h
  simp at h

/-- C3 amended: when the same key occurs more than once, the later entry
overwrites the earlier entry's value (last write wins), but the surviving
entry occupies the position of the key's earliest occurrence, not of the
later occurrence: the dictionary's value for each key is the last one
assigned, while the key order lists first occurrences. -/
theorem c3_amended_last_write_first_position :
    (∀ (ps : List (String × PyVal)) (k : String),
        dictGet (foldInsert [] ps) k = lastAssign ps k) ∧
    (∀ ps : List (String × PyVal),
        dictKeys (foldInsert [] ps) = newFirstKeys [] (ps.map Prod.fst)) ∧
    pipelineDoc "def A = 1 2 def A = 3" =
      .ok (.dict [("A", .int 3), ("item_0", .int 2)]) := by
  refine ⟨?_, ?_, by rfl⟩
  · intro ps k
    rw [foldInsert_get]
    cases lastAssign ps k <;> rfl
  · intro ps
    rw [foldInsert_keys]
    rfl

/-- The key-synthesis rule in the specification's words: an assignment
entry is keyed by its declared name, a bare entry by `item_<n>` where the
counter `n` advances only on bare entries, in order of appearance. -/
def specKeysFrom : Nat → List TItem → List (String × PyVal)
  | _, [] => []
  | k, .pair n v :: rest => (n, v) :: specKeysFrom k rest
  | k, .val v :: rest => ("item_" ++ toString k, v) :: specKeysFrom (k + 1) rest

/-- C6: the `start` loop produces exactly the dictionary obtained by
inserting the specification's key/value pairs in order — bare top-level
values receive `item_<n>` with the counter incremented only for bare
values, and assignments never consume a slot — as the concrete input
`def A = 1 2 def B = 3 4` (bare keys `item_0`, `item_1`) illustrates. -/
theorem c6_counter_only_for_bare_values :
    (∀ (tis : List TItem) (d : Dict) (k : Nat),
        startDict tis d k = foldInsert d (specKeysFrom k tis)) ∧
    pipelineDoc "def A = 1 2 def B = 3 4" =
      .ok (.dict [("A", .int 1), ("item_0", .int 2),
                  ("B", .int 3), ("item_1", .int 4)]) := by
  refine ⟨?_, by rfl⟩
  intro tis
  induction tis with
  | nil => intro d k; rfl
  | cons t tis ih =>
      intro d k
      cases t with
      | pair n v =>
          show startDict tis (dictInsert d n v) k = _
          rw [ih]
          rfl
      | val v =>
          show startDict tis (dictInsert d ("item_" ++ toString k) v) (k + 1) = _
          rw [ih]
          rfl

/-! ## Undefined-constant analysis -/

mutual

/-- Every `?[NAME]` reference inside the value names a constant in
`names` (the textually preceding definitions). -/
def astOkB (names : List String) : Ast → Bool
  | .num _ => true
  | .str _ => true
  | .ref n => keyMem names n
  | .arr xs => astListOkB names xs

/-- `astOkB` over a list of array elements. -/
def astListOkB (names : List String) : List Ast → Bool
  | [] => true
  | a :: rest => astOkB names a && astListOkB names rest

end

/-- Every reference in the item sequence names a constant defined
textually before it, threading the defined names left to right. -/
def itemsOkB (names : List String) : List Item → Bool
  | [] => true
  | .assign n v :: rest => astOkB names v && itemsOkB (n :: names) rest
  | .bare v :: rest => astOkB names v && itemsOkB names rest

mutual

/-- Simultaneous induction principle for `Ast` and element lists. -/
def astMutInd (motive : Ast → Prop) (mlist : List Ast → Prop)
    (hnum : ∀ s, motive (.num s)) (hstr : ∀ s, motive (.str s))
    (href : ∀ n, motive (.ref n))
    (harr : ∀ xs, mlist xs → motive (.arr xs))
    (hnil : mlist [])
    (hcons : ∀ a rest, motive a → mlist rest → mlist (a :: rest)) :
    ∀ a, motive a
  | .num s => hnum s
  | .str s => hstr s
  | .ref n => href n
  | .arr xs =>
      harr xs (astListMutInd motive mlist hnum hstr href harr hnil hcons xs)

/-- List part of the simultaneous induction principle. -/
def astListMutInd (motive : Ast → Prop) (mlist : List Ast → Prop)
    (hnum : ∀ s, motive (.num s)) (hstr : ∀ s, motive (.str s))
    (href : ∀ n, motive (.ref n))
    (harr : ∀ xs, mlist xs → motive (.arr xs))
    (hnil : mlist [])
    (hcons : ∀ a rest, motive a → mlist rest → mlist (a :: rest)) :
    ∀ xs, mlist xs
  | [] => hnil
  | a :: rest =>
      hcons a rest (astMutInd motive mlist hnum hstr href harr hnil hcons a)
        (astListMutInd motive mlist hnum hstr href harr hnil hcons rest)

end

theorem dictGet_isSome (tbl : Dict) (n : String) :
    (dictGet tbl n).isSome = keyMem (dictKeys tbl) n := by
  induction tbl with
  | nil => rfl
  | cons p tbl ih =>
      show (Option.map _ (List.find? _ (p :: tbl))).isSome = _
      cases hpn : p.1 == n with
      | true =>
          rw [List.find?_cons_of_pos _ (by exact hpn)]
          simp [keyMem, dictKeys, hpn]
      | false =>
          rw [List.find?_cons_of_neg _ (by simp [hpn])]
          simp only [keyMem, dictKeys, List.map_cons, List.any_cons, hpn,
            Bool.false_or]
          exact ih

theorem resolveVal_isOk : ∀ a : Ast, ∀ (tbl : Dict) (names : List String),
    (∀ m, keyMem names m = keyMem (dictKeys tbl) m) →
    (resolveVal tbl a).isOk = astOkB names a := by
  apply astMutInd
    (fun a => ∀ (tbl : Dict) (names : List String),
      (∀ m, keyMem names m = keyMem (dictKeys tbl) m) →
      (resolveVal tbl a).isOk = astOkB names a)
    (fun xs => ∀ (tbl : Dict) (names : List String),
      (∀ m, keyMem names m = keyMem (dictKeys tbl) m) →
      (resolveList tbl xs).isOk = astListOkB names xs)
  · intro s tbl names _
    rfl
  · intro s tbl names _
    rfl
  · intro n tbl names h
    show (match dictGet tbl n with
          | some v => Except.ok v
          | none => Except.error resolveConstFailure).isOk = keyMem names n
    rw [h n, ← dictGet_isSome]
    cases dictGet tbl n <;> rfl
  · intro xs hxs tbl names h
    show (match resolveList tbl xs with
          | .error e => Except.error e
          | .ok vs => Except.ok (PyVal.list vs)).isOk = astListOkB names xs
    rw [← hxs tbl names h]
    cases resolveList tbl xs <;> rfl
  · intro tbl names _
    rfl
  · intro a rest iha ihrest tbl names h
    show (match resolveVal tbl a with
          | .error e => Except.error e
          | .ok v =>
              match resolveList tbl rest with
              | .error e => Except.error e
              | .ok vs => Except.ok (v :: vs)).isOk =
        (astOkB names a && astListOkB names rest)
    rw [← iha tbl names h, ← ihrest tbl names h]
    cases resolveVal tbl a with
    | error e => rfl
    | ok v => cases resolveList tbl rest <;> rfl

theorem keyMem_cons (n : String) (names : List String) (m : String) :
    keyMem (n :: names) m = ((n == m) || keyMem names m) := rfl

theorem keyMem_insert_inv (tbl : Dict) (names : List String) (n : String)
    (pv : PyVal) (h : ∀ m, keyMem names m = keyMem (dictKeys tbl) m) :
    ∀ m, keyMem (n :: names) m = keyMem (dictKeys (dictInsert tbl n pv)) m := by
  intro m
  rw [keyMem_cons, dictKeys_insert, h m]
  by_cases hk : keyMem (dictKeys tbl) n
  · rw [if_pos hk]
    by_cases hnm : n = m
    · subst hnm
      simp [hk]
    · have : (n == m) = false := by
        rw [beq_eq_false_iff_ne]; exact hnm
      simp [this]
  · rw [if_neg hk]
    show _ = keyMem (dictKeys tbl ++ [n]) m
    have : keyMem (dictKeys tbl ++ [n]) m =
        (keyMem (dictKeys tbl) m || (n == m)) := by
      simp [keyMem, List.any_append]
    rw [this, Bool.or_comm]

theorem transformItems_isOk : ∀ (items : List Item) (tbl : Dict)
    (names : List String),
    (∀ m, keyMem names m = keyMem (dictKeys tbl) m) →
    (transformItems tbl items).isOk = itemsOkB names items := by
  intro items
  induction items with
  | nil => intro tbl names _; rfl
  | cons it items ih =>
      intro tbl names h
      cases it with
      | assign n v =>
          show (match resolveVal tbl v with
                | .error e => Except.error e
                | .ok pv =>
                    match transformItems (dictInsert tbl n pv) items with
                    | .error e => Except.error e
                    | .ok (tis, tbl') =>
                        Except.ok (TItem.pair n pv :: tis, tbl')).isOk =
              (astOkB names v && itemsOkB (n :: names) items)
          rw [← resolveVal_isOk v tbl names h]
          cases hr : resolveVal tbl v with
          | error e => rfl
          | ok pv =>
              dsimp only
              rw [← ih (dictInsert tbl n pv) (n :: names)
                    (keyMem_insert_inv tbl names n pv h)]
              cases transformItems (dictInsert tbl n pv) items with
              | error e => rfl
              | ok p => rfl
      | bare v =>
          show (match resolveVal tbl v with
                | .error e => Except.error e
                | .ok pv =>
                    match transformItems tbl items with
                    | .error e => Except.error e
                    | .ok (tis, tbl') =>
                        Except.ok (TItem.val pv :: tis, tbl')).isOk =
              (astOkB names v && itemsOkB names items)
          rw [← resolveVal_isOk v tbl names h]
          cases hr : resolveVal tbl v with
          | error e => rfl
          | ok pv =>
              dsimp only
              rw [← ih tbl names h]
              cases transformItems tbl items with
              | error e => rfl
              | ok p => rfl

theorem resolveVal_error_shape : ∀ a : Ast, ∀ (tbl : Dict) (e : Err),
    resolveVal tbl a = .error e → e = resolveConstFailure := by
  apply astMutInd
    (fun a => ∀ (tbl : Dict) (e : Err),
      resolveVal tbl a = .error e → e = resolveConstFailure)
    (fun xs => ∀ (tbl : Dict) (e : Err),
      resolveList tbl xs = .error e → e = resolveConstFailure)
  · intro s tbl e h
    simp [resolveVal] at h
  · intro s tbl e h
    simp [resolveVal] at h
  · intro n tbl e h
    simp only [resolveVal] at h
    cases hg : dictGet tbl n with
    | some v => rw [hg] at h; simp at h
    | none =>
        rw [hg] at h
        exact (Except.error.inj h).symm
  · intro xs hxs tbl e h
    simp only [resolveVal] at h
    cases hr : resolveList tbl xs with
    | error e' =>
        rw [hr] at h
        exact (Except.error.inj h) ▸ hxs tbl e' hr
    | ok vs => rw [hr] at h; simp at h
  · intro tbl e h
    simp [resolveList] at h
  · intro a rest iha ihrest tbl e h
    simp only [resolveList] at h
    cases ha : resolveVal tbl a with
    | error e' =>
        rw [ha] at h
        exact (Except.error.inj h) ▸ iha tbl e' ha
    | ok v =>
        rw [ha] at h
        cases hrest : resolveList tbl rest with
        | error e' =>
            rw [hrest] at h
            exact (Except.error.inj h) ▸ ihrest tbl e' hrest
        | ok vs => rw [hrest] at h; simp at h

theorem transformItems_error_shape : ∀ (items : List Item) (tbl : Dict)
    (e : Err), transformItems tbl items = .error e →
    e = resolveConstFailure := by
  intro items
  induction items with
  | nil => intro tbl e h; simp [transformItems] at h
  | cons it items ih =>
      intro tbl e h
      cases it with
      | assign n v =>
          simp only [transformItems] at h
          cases hr : resolveVal tbl v with
          | error e' =>
              rw [hr] at h
              exact (Except.error.inj h) ▸ resolveVal_error_shape v tbl e' hr
          | ok pv =>
              rw [hr] at h
              dsimp only at h
              cases ht : transformItems (dictInsert tbl n pv) items with
              | error e' =>
                  rw [ht] at h
                  exact (Except.error.inj h) ▸ ih (dictInsert tbl n pv) e' ht
              | ok p => rw [ht] at h; simp at h
      | bare v =>
          simp only [transformItems] at h
          cases hr : resolveVal tbl v with
          | error e' =>
              rw [hr] at h
              exact (Except.error.inj h) ▸ resolveVal_error_shape v tbl e' hr
          | ok pv =>
              rw [hr] at h
              dsimp only at h
              cases ht : transformItems tbl items with
              | error e' =>
                  rw [ht] at h
                  exact (Except.error.inj h) ▸ ih tbl e' ht
              | ok p => rw [ht] at h; simp at h

theorem transformTop_isOk_eq (items : List Item) :
    (transformTop items).isOk = (transformItems [] items).isOk := by
  unfold transformTop
  cases h : transformItems [] items with
  | error e => rfl
  | ok p =>
      obtain ⟨tis, tbl⟩ := p
      cases tis with
      | nil => rfl
      | cons t ts => cases ts <;> rfl

/-- Whether `pat` is a prefix of the second list. -/
def startsWithSeq : List Char → List Char → Bool
  | [], _ => true
  | _ :: _, [] => false
  | p :: ps, c :: cs => p == c && startsWithSeq ps cs

/-- Whether `pat` occurs as a contiguous subsequence. -/
def containsSeq (pat : List Char) : List Char → Bool
  | [] => pat.isEmpty
  | c :: cs => startsWithSeq pat (c :: cs) || containsSeq pat cs

/-- C2, evaluated at the failing input: the failure half of the claim
holds — transformation succeeds exactly when every reference names a
constant already defined at its point in the traversal, and
`def B = ?[A]` aborts with a `VisitError` and produces no output — but
the error does not name the constant.  The intended line-78 message
(`undefMsg`, which does contain `A`) is never constructed: the
one-argument `VisitError(msg)` call raises a `TypeError`, and the
`VisitError` that lark wraps around it carries a message in which the
constant's name never appears. -/
theorem c2_error_reporting_bug :
    (∀ items : List Item, (transformTop items).isOk = itemsOkB [] items) ∧
    pipelineXml "def B = ?[A]" = .error resolveConstFailure ∧
    containsSeq "A".data (undefMsg "A").data = true ∧
    containsSeq "A".data (wrapMsg "resolve_const").data = false := by
  refine ⟨?_, by rfl, by decide, by decide⟩
  intro items
  rw [transformTop_isOk_eq]
  exact transformItems_isOk items [] [] (fun m => rfl)

/-! ## Arrays are never empty in parser output -/

mutual

/-- Every array node in the value has at least one element. -/
def arraysNonempty : Ast → Bool
  | .num _ => true
  | .str _ => true
  | .ref _ => true
  | .arr xs => !xs.isEmpty && arraysNonemptyList xs

/-- `arraysNonempty` over array elements. -/
def arraysNonemptyList : List Ast → Bool
  | [] => true
  | a :: rest => arraysNonempty a && arraysNonemptyList rest

end

/-- Every array node in any item of the sequence is nonempty. -/
def itemsArraysNonempty : List Item → Bool
  | [] => true
  | .assign _ v :: rest => arraysNonempty v && itemsArraysNonempty rest
  | .bare v :: rest => arraysNonempty v && itemsArraysNonempty rest

theorem arraysNonemptyList_append (xs : List Ast) (a : Ast) :
    arraysNonemptyList (xs ++ [a]) =
      (arraysNonemptyList xs && arraysNonempty a) := by
  induction xs with
  | nil => simp [arraysNonemptyList]
  | cons b xs ih => simp [arraysNonemptyList, ih, Bool.and_assoc]

theorem parse_preserves_nonempty (fuel : Nat) :
    (∀ ts a rest, parseValue fuel ts = .ok (a, rest) →
        arraysNonempty a = true) ∧
    (∀ acc ts a rest, parseArrayTail fuel acc ts = .ok (a, rest) →
        acc ≠ [] → arraysNonemptyList acc = true → arraysNonempty a = true) ∧
    (∀ ts items, parseItems fuel ts = .ok items →
        itemsArraysNonempty items = true) := by
  induction fuel with
  | zero =>
      refine ⟨?_, ?_, ?_⟩
      · intro ts a rest h
        simp [parseValue] at h
      · intro acc ts a rest h hne hl
        simp [parseArrayTail] at h
      · intro ts items h
        simp [parseItems] at h
  | succ fuel ih =>
      obtain ⟨ihV, ihT, ihI⟩ := ih
      refine ⟨?_, ?_, ?_⟩
      · intro ts a rest h
        simp only [parseValue] at h
        split at h
        · cases h; rfl
        · cases h; rfl
        · cases h; rfl
        · rename_i rest0
          cases hv : parseValue fuel rest0 with
          | error e => rw [hv] at h; simp at h
          | ok p =>
              obtain ⟨v, rest1⟩ := p
              rw [hv] at h
              dsimp only at h
              exact ihT [v] rest1 a rest h (by simp)
                (by simp [arraysNonemptyList, ihV rest0 v rest1 hv])
        · simp at h
      · intro acc ts a rest h hne hlist
        simp only [parseArrayTail] at h
        split at h
        · rename_i rest0
          cases hv : parseValue fuel rest0 with
          | error e => rw [hv] at h; simp at h
          | ok p =>
              obtain ⟨v, rest1⟩ := p
              rw [hv] at h
              dsimp only at h
              exact ihT (acc ++ [v]) rest1 a rest h (by simp)
                (by simp [arraysNonemptyList_append, hlist,
                      ihV rest0 v rest1 hv])
        · cases h
          simp [arraysNonempty, hlist, hne]
        · simp at h
      · intro ts items h
        simp only [parseItems] at h
        split at h
        · cases h; rfl
        · rename_i n rest0
          cases hv : parseValue fuel rest0 with
          | error e => rw [hv] at h; simp at h
          | ok p =>
              obtain ⟨v, rest1⟩ := p
              rw [hv] at h
              dsimp only at h
              cases hi : parseItems fuel rest1 with
              | error e => rw [hi] at h; simp at h
              | ok its =>
                  rw [hi] at h
                  cases h
                  simp [itemsArraysNonempty, ihV rest0 v rest1 hv,
                    ihI rest1 its hi]
        · simp at h
        · cases hv : parseValue fuel ts with
          | error e => rw [hv] at h; simp at h
          | ok p =>
              obtain ⟨v, rest1⟩ := p
              rw [hv] at h
              dsimp only at h
              cases hi : parseItems fuel rest1 with
              | error e => rw [hi] at h; simp at h
              | ok its =>
                  rw [hi] at h
                  cases h
                  simp [itemsArraysNonempty, ihV ts v rest1 hv,
                    ihI rest1 its hi]

/-- C7: the empty array literal is rejected with a parse error (the
grammar requires at least one element between the braces), and no parser
output — neither a value nor any top-level item — contains an empty
Array node. -/
theorem c7_empty_array_rejected :
    pipelineXml (String.mk ['\x7b', '\x7d']) =
      .error (.parseError "Unexpected token in value position") ∧
    (∀ fuel ts a rest, parseValue fuel ts = .ok (a, rest) →
        arraysNonempty a = true) ∧
    (∀ fuel ts items, parseItems fuel ts = .ok items →
        itemsArraysNonempty items = true) := by
  refine ⟨by rfl, ?_, ?_⟩
  · intro fuel
    exact (parse_preserves_nonempty fuel).1
  · intro fuel
    exact (parse_preserves_nonempty fuel).2.2

/-- Witness for C7 at concrete parses: a parsed one-element array and a
parsed item list satisfy the nonemptiness invariant. -/
theorem c7_witness :
    arraysNonempty (Ast.arr [Ast.num "1"]) = true ∧
    itemsArraysNonempty [Item.bare (Ast.num "7")] = true :=
  ⟨c7_empty_array_rejected.2.1 3 [Tok.lbrace, Tok.number "1", Tok.rbrace]
      (Ast.arr [Ast.num "1"]) [] (by rfl),
   c7_empty_array_rejected.2.2 2 [Tok.number "7"]
      [Item.bare (Ast.num "7")] (by rfl)⟩

/-! ## Comments and whitespace are transparent to the lexer -/

theorem lexGo_step_nil {st : LexSt} {c : Char} {st' : LexSt}
    (h : lexStep st c = .ok ([], st')) (cs : List Char) :
    lexGo st (c :: cs) = lexGo st' cs := by
  show (match lexStep st c with
        | .error e => Except.error e
        | .ok (ts, st') =>
            match lexGo st' cs with
            | .error e => Except.error e
            | .ok rest => Except.ok (ts ++ rest)) = _
  rw [h]
  dsimp only
  cases lexGo st' cs <;> rfl

/-- No `#|` pair occurs inside the text (the body of a block comment may
not contain the non-greedy terminator). -/
def noHashPipe : List Char → Bool
  | [] => true
  | [_] => true
  | c1 :: c2 :: rest => !(c1 == '#' && c2 == '|') && noHashPipe (c2 :: rest)

/-- A piece of ignorable input: a whitespace character, a single-line
comment `--…` followed by its terminating newline, or a block comment
`|#…#|`. -/
inductive Trivia where
  | ws (c : Char)
  | line (body : List Char)
  | block (body : List Char)

/-- Well-formedness: the whitespace character is whitespace, a line
comment body contains no newline, a block body no `#|`. -/
def Trivia.wf : Trivia → Bool
  | .ws c => isWsChar c
  | .line body => body.all (fun c => !(c == '\n'))
  | .block body => noHashPipe body

/-- Source text of a piece of trivia. -/
def Trivia.render : Trivia → List Char
  | .ws c => [c]
  | .line body => '-' :: '-' :: (body ++ ['\n'])
  | .block body => '|' :: '#' :: (body ++ ['#', '|'])

/-- Source text of a trivia sequence. -/
def triviaRender : List Trivia → List Char
  | [] => []
  | t :: ts => t.render ++ triviaRender ts

theorem lexGo_lineC (body : List Char)
    (h : body.all (fun c => !(c == '\n')) = true) :
    ∀ cs, lexGo .lineC (body ++ '\n' :: cs) = lexGo .top cs := by
  induction body with
  | nil =>
      intro cs
      exact lexGo_step_nil (by rfl) cs
  | cons c body ih =>
      intro cs
      simp only [List.all_cons, Bool.and_eq_true] at h
      have hc : (c == '\n') = false := by simpa using h.1
      have h1 : lexStep LexSt.lineC c = .ok ([], LexSt.lineC) := by
        simp [lexStep, hc]
      rw [List.cons_append, lexGo_step_nil h1]
      exact ih h.2 cs

theorem lexGo_line_comment (body : List Char)
    (h : body.all (fun c => !(c == '\n')) = true) (cs : List Char) :
    lexGo .top ('-' :: '-' :: (body ++ '\n' :: cs)) = lexGo .top cs := by
  have h1 : lexStep LexSt.top '-' = .ok ([], LexSt.sawSign true) := by rfl
  have h2 : lexStep (LexSt.sawSign true) '-' = .ok ([], LexSt.lineC) := by rfl
  rw [lexGo_step_nil h1, lexGo_step_nil h2]
  exact lexGo_lineC body h cs

theorem noHashPipe_tail {c : Char} {body : List Char}
    (h : noHashPipe (c :: body) = true) : noHashPipe body = true := by
  cases body with
  | nil => rfl
  | cons c2 rest =>
      simp only [noHashPipe, Bool.and_eq_true] at h
      exact h.2

theorem noHashPipe_head {c : Char} {body : List Char}
    (h : noHashPipe (c :: body) = true) (hc : c = '#') :
    body.head? ≠ some '|' := by
  cases body with
  | nil => simp
  | cons c2 rest =>
      subst hc
      simp only [noHashPipe, Bool.and_eq_true, Bool.not_eq_true'] at h
      intro hh
      have hc2 : c2 = '|' := by simpa using hh
      subst hc2
      simp at h

theorem lexGo_blockC_aux : ∀ body : List Char, noHashPipe body = true →
    (∀ cs, lexGo .blockC (body ++ '#' :: '|' :: cs) = lexGo .top cs) ∧
    (body.head? ≠ some '|' →
      ∀ cs, lexGo .blockCHash (body ++ '#' :: '|' :: cs) = lexGo .top cs) := by
  intro body
  induction body with
  | nil =>
      intro _
      constructor
      · intro cs
        have h1 : lexStep LexSt.blockC '#' = .ok ([], LexSt.blockCHash) := by rfl
        have h2 : lexStep LexSt.blockCHash '|' = .ok ([], LexSt.top) := by rfl
        rw [List.nil_append, lexGo_step_nil h1, lexGo_step_nil h2]
      · intro _ cs
        have h1 : lexStep LexSt.blockCHash '#' = .ok ([], LexSt.blockCHash) := by rfl
        have h2 : lexStep LexSt.blockCHash '|' = .ok ([], LexSt.top) := by rfl
        rw [List.nil_append, lexGo_step_nil h1, lexGo_step_nil h2]
  | cons c body ih =>
      intro hwf
      obtain ⟨ihC, ihH⟩ := ih (noHashPipe_tail hwf)
      constructor
      · intro cs
        by_cases hc : c = '#'
        · subst hc
          have h1 : lexStep LexSt.blockC '#' = .ok ([], LexSt.blockCHash) := by rfl
          rw [List.cons_append, lexGo_step_nil h1]
          exact ihH (noHashPipe_head hwf rfl) cs
        · have h1 : lexStep LexSt.blockC c = .ok ([], LexSt.blockC) := by
            simp [lexStep, hc]
          rw [List.cons_append, lexGo_step_nil h1]
          exact ihC cs
      · intro hhead cs
        have hcp : ¬(c = '|') := fun hcpipe => hhead (by simp [hcpipe])
        by_cases hc : c = '#'
        · subst hc
          have h1 : lexStep LexSt.blockCHash '#' = .ok ([], LexSt.blockCHash) := by rfl
          rw [List.cons_append, lexGo_step_nil h1]
          exact ihH (noHashPipe_head hwf rfl) cs
        · have h1 : lexStep LexSt.blockCHash c = .ok ([], LexSt.blockC) := by
            simp [lexStep, hc, hcp]
          rw [List.cons_append, lexGo_step_nil h1]
          exact ihC cs

theorem lexGo_block_comment (body : List Char) (h : noHashPipe body = true)
    (cs : List Char) :
    lexGo .top ('|' :: '#' :: (body ++ '#' :: '|' :: cs)) = lexGo .top cs := by
  have h1 : lexStep LexSt.top '|' = .ok ([], LexSt.sawPipe) := by rfl
  have h2 : lexStep LexSt.sawPipe '#' = .ok ([], LexSt.blockC) := by rfl
  rw [lexGo_step_nil h1, lexGo_step_nil h2]
  exact (lexGo_blockC_aux body h).1 cs

theorem lexGo_trivia (ts : List Trivia) (h : ts.all Trivia.wf = true) :
    ∀ cs, lexGo .top (triviaRender ts ++ cs) = lexGo .top cs := by
  induction ts with
  | nil => intro cs; rfl
  | cons t ts ih =>
      intro cs
      simp only [List.all_cons, Bool.and_eq_true] at h
      show lexGo .top ((t.render ++ triviaRender ts) ++ cs) = _
      rw [List.append_assoc]
      cases t with
      | ws c =>
          have h1 : lexStep LexSt.top c = .ok ([], LexSt.top) := by
            have hws : isWsChar c = true := h.1
            simp [lexStep, stepTop, hws]
          show lexGo .top (c :: (triviaRender ts ++ cs)) = _
          rw [lexGo_step_nil h1]
          exact ih h.2 cs
      | line body =>
          show lexGo .top
              (('-' :: '-' :: (body ++ ['\n'])) ++ (triviaRender ts ++ cs)) = _
          have hshape :
              (('-' :: '-' :: (body ++ ['\n'])) ++ (triviaRender ts ++ cs)) =
                '-' :: '-' :: (body ++ '\n' :: (triviaRender ts ++ cs)) := by
            simp
          rw [hshape, lexGo_line_comment body h.1]
          exact ih h.2 cs
      | block body =>
          show lexGo .top
              (('|' :: '#' :: (body ++ ['#', '|'])) ++ (triviaRender ts ++ cs)) = _
          have hshape :
              (('|' :: '#' :: (body ++ ['#', '|'])) ++ (triviaRender ts ++ cs)) =
                '|' :: '#' :: (body ++ '#' :: '|' :: (triviaRender ts ++ cs)) := by
            simp
          rw [hshape, lexGo_block_comment body h.1]
          exact ih h.2 cs

/-- Whether the input does not continue with a digit (a pending number
token ends here). -/
def headNotDigit : List Char → Bool
  | [] => true
  | c :: _ => !isDigitChar c

theorem isWsChar_not_digit (c : Char) (h : isWsChar c = true) :
    isDigitChar c = false := by
  simp only [isWsChar, Bool.or_eq_true, beq_iff_eq] at h
  rcases h with ((((h | h) | h) | h) | h) | h <;> subst h <;> decide

theorem isDigitChar_not_ws (c : Char) (h : isDigitChar c = true) :
    isWsChar c = false := by
  cases hw : isWsChar c with
  | false => rfl
  | true =>
      rw [isWsChar_not_digit c hw] at h
      exact absurd h (by simp)

theorem triviaRender_headNotDigit (ts : List Trivia)
    (h : ts.all Trivia.wf = true) : headNotDigit (triviaRender ts) = true := by
  cases ts with
  | nil => rfl
  | cons t ts =>
      simp only [List.all_cons, Bool.and_eq_true] at h
      cases t with
      | ws c =>
          show headNotDigit (c :: triviaRender ts) = true
          simp [headNotDigit, isWsChar_not_digit c h.1]
      | line body => rfl
      | block body => rfl

theorem lexGo_numAcc_emit (sign : Option Char) (ds : List Char)
    (cs : List Char) (h : headNotDigit cs = true) :
    lexGo (.numAcc sign ds) cs =
      match lexGo .top cs with
      | .error e => Except.error e
      | .ok rest => Except.ok (mkNum sign ds :: rest) := by
  cases cs with
  | nil => rfl
  | cons c cs' =>
      have hc : isDigitChar c = false := by simpa [headNotDigit] using h
      show (match lexStep (.numAcc sign ds) c with
            | .error e => Except.error e
            | .ok (ts, st') =>
                match lexGo st' cs' with
                | .error e => Except.error e
                | .ok rest => Except.ok (ts ++ rest)) = _
      have hstep : lexStep (LexSt.numAcc sign ds) c =
          (match stepTop c with
           | .error e => Except.error e
           | .ok (ts, st) => Except.ok (mkNum sign ds :: ts, st)) := by
        simp [lexStep, hc]
      rw [hstep]
      show _ = (match (match stepTop c with
            | .error e => Except.error e
            | .ok (ts, st') =>
                match lexGo st' cs' with
                | .error e => Except.error e
                | .ok rest => Except.ok (ts ++ rest)) with
          | .error e => Except.error e
          | .ok rest => Except.ok (mkNum sign ds :: rest))
      cases hst : stepTop c with
      | error e => rfl
      | ok p =>
          obtain ⟨ts0, st0⟩ := p
          dsimp only
          cases lexGo st0 cs' <;> rfl

theorem lexGo_numAcc_digits (ds : List Char) (h : ds.all isDigitChar = true) :
    ∀ (sign : Option Char) (acc cs : List Char),
      lexGo (.numAcc sign acc) (ds ++ cs) =
        lexGo (.numAcc sign (acc ++ ds)) cs := by
  induction ds with
  | nil =>
      intro sign acc cs
      rw [List.append_nil, List.nil_append]
  | cons d ds ih =>
      intro sign acc cs
      simp only [List.all_cons, Bool.and_eq_true] at h
      have h1 : lexStep (LexSt.numAcc sign acc) d =
          .ok ([], .numAcc sign (acc ++ [d])) := by
        simp [lexStep, h.1]
      rw [List.cons_append, lexGo_step_nil h1, ih h.2]
      have hsh : acc ++ [d] ++ ds = acc ++ (d :: ds) := by simp
      rw [hsh]

theorem lexGo_strAcc (content : List Char)
    (h : content.all (fun c => !(c == '"')) = true) :
    ∀ (acc cs : List Char),
      lexGo (.strAcc acc) (content ++ '"' :: cs) =
        match lexGo .top cs with
        | .error e => Except.error e
        | .ok rest => Except.ok (mkStr (acc ++ content) :: rest) := by
  induction content with
  | nil =>
      intro acc cs
      have h1 : lexStep (LexSt.strAcc acc) '"' = .ok ([mkStr acc], .top) := by rfl
      show (match lexStep (.strAcc acc) '"' with
            | .error e => Except.error e
            | .ok (ts, st') =>
                match lexGo st' cs with
                | .error e => Except.error e
                | .ok rest => Except.ok (ts ++ rest)) = _
      rw [h1]
      dsimp only
      cases lexGo .top cs <;> simp
  | cons c content ih =>
      intro acc cs
      simp only [List.all_cons, Bool.and_eq_true] at h
      have hc : (c == '"') = false := by simpa using h.1
      have h1 : lexStep (LexSt.strAcc acc) c =
          .ok ([], .strAcc (acc ++ [c])) := by
        simp [lexStep, hc]
      rw [List.cons_append, lexGo_step_nil h1, ih h.2]
      have hsh : acc ++ [c] ++ content = acc ++ (c :: content) := by simp
      rw [hsh]

/-- One scalar value: a `NUMBER` literal (optional explicit sign, digit
characters) or a `STRING_DOUBLE` literal (content without `"`). -/
inductive Scalar where
  | num (sign : Option Char) (ds : List Char)
  | txt (content : List Char)

/-- Well-formedness of a scalar literal. -/
def Scalar.wf : Scalar → Bool
  | .num sign ds =>
      (match sign with
       | none => true
       | some c => c == '+' || c == '-') && !ds.isEmpty && ds.all isDigitChar
  | .txt content => content.all (fun c => !(c == '"'))

/-- Source text of a scalar literal. -/
def Scalar.render : Scalar → List Char
  | .num none ds => ds
  | .num (some c) ds => c :: ds
  | .txt content => '"' :: (content ++ ['"'])

/-- The token a scalar literal lexes to. -/
def scalarTok : Scalar → Tok
  | .num sign ds => mkNum sign ds
  | .txt content => mkStr content

theorem lexGo_scalar (sc : Scalar) (h : sc.wf = true) (cs : List Char)
    (hcs : headNotDigit cs = true) :
    lexGo .top (sc.render ++ cs) =
      match lexGo .top cs with
      | .error e => Except.error e
      | .ok rest => Except.ok (scalarTok sc :: rest) := by
  cases sc with
  | txt content =>
      have h1 : lexStep LexSt.top '"' = .ok ([], .strAcc []) := by rfl
      show lexGo .top (('"' :: (content ++ ['"'])) ++ cs) = _
      have hshape : (('"' :: (content ++ ['"'])) ++ cs) =
          '"' :: (content ++ '"' :: cs) := by simp
      rw [hshape, lexGo_step_nil h1, lexGo_strAcc content h []]
      rfl
  | num sign ds =>
      simp only [Scalar.wf, Bool.and_eq_true] at h
      obtain ⟨⟨hsign, hne⟩, hds⟩ := h
      cases ds with
      | nil => simp at hne
      | cons d ds' =>
          have hd : isDigitChar d = true ∧ ds'.all isDigitChar = true := by
            simpa using hds
          cases sign with
          | none =>
              show lexGo .top ((d :: ds') ++ cs) = _
              have h1 : lexStep LexSt.top d = .ok ([], .numAcc none [d]) := by
                simp [lexStep, stepTop, isDigitChar_not_ws d hd.1, hd.1]
              rw [List.cons_append, lexGo_step_nil h1,
                lexGo_numAcc_digits ds' hd.2, lexGo_numAcc_emit _ _ _ hcs]
              rfl
          | some sC =>
              have hsc : sC = '+' ∨ sC = '-' := by
                rcases Bool.or_eq_true_iff.mp hsign with h' | h'
                · exact Or.inl (by simpa using h')
                · exact Or.inr (by simpa using h')
              have hstep2 : lexStep (LexSt.sawSign (sC == '-')) d =
                  .ok ([], .numAcc (some sC) [d]) := by
                rcases hsc with h' | h' <;> subst h' <;> simp [lexStep, hd.1]
              have h1 : lexStep LexSt.top sC = .ok ([], .sawSign (sC == '-')) := by
                rcases hsc with h' | h' <;> subst h' <;> rfl
              show lexGo .top ((sC :: (d :: ds')) ++ cs) = _
              rw [List.cons_append, lexGo_step_nil h1, List.cons_append,
                lexGo_step_nil hstep2, lexGo_numAcc_digits ds' hd.2,
                lexGo_numAcc_emit _ _ _ hcs]
              rfl

/-- C8: comments are semantically transparent — for any well-formed
sequences of whitespace and comments surrounding one scalar literal, the
pipeline produces exactly the same Document as for the literal alone
(hence also the same as for the file with its comments removed, since
removing them leaves only more whitespace around the literal). -/
theorem c8_comments_transparent (pre post : List Trivia) (sc : Scalar)
    (hpre : pre.all Trivia.wf = true) (hpost : post.all Trivia.wf = true)
    (hsc : sc.wf = true) :
    pipelineDoc (String.mk (triviaRender pre ++ sc.render ++ triviaRender post)) =
      pipelineDoc (String.mk sc.render) := by
  have hpostlex : lexGo .top (triviaRender post) = .ok [] := by
    have h := lexGo_trivia post hpost []
    rw [List.append_nil] at h
    rw [h]
    rfl
  have hl : lexString
      (String.mk (triviaRender pre ++ sc.render ++ triviaRender post)) =
      .ok [scalarTok sc] := by
    show lexGo .top (triviaRender pre ++ sc.render ++ triviaRender post) = _
    rw [List.append_assoc, lexGo_trivia pre hpre,
      lexGo_scalar sc hsc (triviaRender post)
        (triviaRender_headNotDigit post hpost), hpostlex]
  have hr : lexString (String.mk sc.render) = .ok [scalarTok sc] := by
    show lexGo .top sc.render = _
    have h := lexGo_scalar sc hsc [] (by rfl)
    rw [List.append_nil] at h
    rw [h]
    rfl
  have expand : ∀ s, pipelineDoc s =
      (match lexString s with
       | .error e => Except.error e
       | .ok toks =>
           match parseItems (toks.length + 1) toks with
           | .error e => Except.error e
           | .ok items => transformTop items) := fun s => rfl
  rw [expand, expand, hl, hr]

/-- Witness for C8 with one line comment, one block comment and
whitespace around the number literal `42`. -/
theorem c8_witness :
    pipelineDoc (String.mk (triviaRender [Trivia.line [' ', 'c'], Trivia.ws ' ']
        ++ Scalar.render (Scalar.num none ['4', '2'])
        ++ triviaRender [Trivia.ws ' ', Trivia.block [' ', 'b', ' ']])) =
      pipelineDoc (String.mk (Scalar.render (Scalar.num none ['4', '2']))) :=
  c8_comments_transparent [Trivia.line [' ', 'c'], Trivia.ws ' ']
    [Trivia.ws ' ', Trivia.block [' ', 'b', ' ']]
    (Scalar.num none ['4', '2']) (by rfl) (by rfl) (by rfl)

/-- C10: an input consisting only of whitespace and comments (the empty
input included) is accepted, produces the empty Document, and emits
exactly the self-closed root `<config/>` — no declaration line, no
surrounding whitespace. -/
theorem c10_trivia_only_input (ts : List Trivia)
    (h : ts.all Trivia.wf = true) :
    pipelineDoc (String.mk (triviaRender ts)) = .ok (.dict []) ∧
    pipelineXml (String.mk (triviaRender ts)) = .ok "<config/>" ∧
    pipelineXml "" = .ok "<config/>" := by
  have hl : lexString (String.mk (triviaRender ts)) = .ok [] := by
    show lexGo .top (triviaRender ts) = _
    have h' := lexGo_trivia ts h []
    rw [List.append_nil] at h'
    rw [h']
    rfl
  refine ⟨?_, ?_, by rfl⟩
  · show (match lexString (String.mk (triviaRender ts)) with
          | .error e => Except.error e
          | .ok toks =>
              match parseItems (toks.length + 1) toks with
              | .error e => Except.error e
              | .ok items => transformTop items) = _
    rw [hl]
    rfl
  · show (match pipelineDoc (String.mk (triviaRender ts)) with
          | .error e => Except.error e
          | .ok d => Except.ok (generate_xml_from_dict d "config")) = _
    have hdoc : pipelineDoc (String.mk (triviaRender ts)) = .ok (.dict []) := by
      show (match lexString (String.mk (triviaRender ts)) with
            | .error e => Except.error e
            | .ok toks =>
                match parseItems (toks.length + 1) toks with
                | .error e => Except.error e
                | .ok items => transformTop items) = _
      rw [hl]
      rfl
    rw [hdoc]
    rfl

/-- Witness for C10 with whitespace, a line comment and a block
comment. -/
theorem c10_witness :
    pipelineDoc (String.mk (triviaRender
        [Trivia.ws ' ', Trivia.line [' ', 'h', 'i'],
         Trivia.block ['b'], Trivia.ws '\n'])) = .ok (.dict []) ∧
    pipelineXml (String.mk (triviaRender
        [Trivia.ws ' ', Trivia.line [' ', 'h', 'i'],
         Trivia.block ['b'], Trivia.ws '\n'])) = .ok "<config/>" ∧
    pipelineXml "" = .ok "<config/>" :=
  c10_trivia_only_input
    [Trivia.ws ' ', Trivia.line [' ', 'h', 'i'],
     Trivia.block ['b'], Trivia.ws '\n'] (by rfl)

end ConfigV24
